import Mathlib

/-
Verification of the greeting module (src/hello.py) against its specification.
The Python code is shallowly embedded: dynamic Python values are modelled by
the PyVal type, exceptions by an Err-valued Except, and every function of the
module by a computable Lean definition that follows the source line by line.
-/

namespace hello

/-- Dynamically typed Python values, as far as the module can observe them:
strings, integers, booleans, None, lists and tuples. -/
inductive PyVal where
  | str (s : String)
  | int (n : Int)
  | bool (b : Bool)
  | none
  | list (xs : List PyVal)
  | tuple (xs : List PyVal)

/-- The two exception kinds the module raises, with their messages. -/
inductive Err where
  | typeError (msg : String)
  | valueError (msg : String)
deriving DecidableEq, Repr

/-- Whether a Python value is a str instance. -/
def PyVal.isStr : PyVal → Bool
  | .str _ => true
  | _ => false

/-- Whether a Python value is a list instance. -/
def PyVal.isList : PyVal → Bool
  | .list _ => true
  | _ => false

/-- Modelled from the spec notion of a genuine sequence type: among the
modelled values, Python sequence types are str, list and tuple (a tuple is a
sequence but not a list). Used only to state claims about sequence
acceptance; the code itself tests only for list. -/
def PyVal.isSequence : PyVal → Bool
  | .str _ => true
  | .list _ => true
  | .tuple _ => true
  | _ => false

/-- The whitespace characters stripped by Python str.strip (ASCII range). -/
def isPySpace (c : Char) : Bool :=
  c = ' ' || c = '\t' || c = '\n' || c = '\r' || c = '\x0b' || c = '\x0c'

/-- Python str.strip on the underlying character list. -/
def pyStripList (l : List Char) : List Char :=
  ((l.dropWhile isPySpace).reverse.dropWhile isPySpace).reverse

/-- Python str.strip: removes leading and trailing whitespace. -/
def pyStrip (s : String) : String :=
  String.mk (pyStripList s.data)

/-- The function greet of src/hello.py (lines 33-74): validates that both
arguments are strings, that the name is not empty nor whitespace only, and
returns the formatted message with the name stripped. -/
def greet (name greeting : PyVal) : Except Err String :=
  match name with
  | .str n =>
    match greeting with
    | .str g =>
      if n = "" ∨ pyStrip n = "" then
        .error (.valueError "Name cannot be empty or whitespace only")
      else
        .ok (g ++ ", " ++ pyStrip n ++ "!")
    | _ => .error (.typeError "Greeting must be a string")
  | _ => .error (.typeError "Name must be a string")

/-- Calling greet with the greeting argument omitted: the Python default
parameter value is the string Hello. -/
def greet1 (name : PyVal) : Except Err String :=
  greet name (.str "Hello")

/-- A name value is valid when it is a string with at least one
non-whitespace character; exactly these survive validation in greet. -/
def isValidName : PyVal → Bool
  | .str s => !(pyStrip s == "")
  | _ => false

/-- The message greet produces for a valid name (and the empty string on the
constructors greet rejects; never used there). -/
def fmtName (g : String) : PyVal → String
  | .str s => g ++ ", " ++ pyStrip s ++ "!"
  | _ => ""

/-- The loop of greet_multiple (src/hello.py lines 117-121): the messages are
accumulated in order and the first exception aborts the whole call. -/
def greetLoop : List PyVal → PyVal → Except Err (List String)
  | [], _ => .ok []
  | n :: ns, g =>
    match greet n g with
    | .error e => .error e
    | .ok m =>
      match greetLoop ns g with
      | .error e => .error e
      | .ok ms => .ok (m :: ms)

/-- The function greet_multiple of src/hello.py (lines 77-121): checks that
names is a list and greeting a string, then greets every name, propagating
the first failure. -/
def greet_multiple (names greeting : PyVal) : Except Err (List String) :=
  match names with
  | .list ns =>
    match greeting with
    | .str _ => greetLoop ns greeting
    | _ => .error (.typeError "Greeting must be a string")
  | _ => .error (.typeError "Names must be a list")

/-- The loop of greet_multiple_safe (src/hello.py lines 157-171): valid
string names are greeted and appended, every other entry is counted as
skipped; exceptions from greet are also converted into skips. Returns the
collected messages together with the skipped count (the count is only logged
by the source, it is carried here to model that log line). -/
def safeLoop (g : PyVal) : List PyVal → List String × Nat
  | [] => ([], 0)
  | n :: ns =>
    let rest := safeLoop g ns
    match n with
    | .str s =>
      if pyStrip s = "" then (rest.1, rest.2 + 1)
      else
        match greet (.str s) g with
        | .ok m => (m :: rest.1, rest.2)
        | .error _ => (rest.1, rest.2 + 1)
    | _ => (rest.1, rest.2 + 1)

/-- The function greet_multiple_safe of src/hello.py (lines 124-172): same
top-level checks as greet_multiple, then the tolerant loop. -/
def greet_multiple_safe (names greeting : PyVal) :
    Except Err (List String × Nat) :=
  match names with
  | .list ns =>
    match greeting with
    | .str _ => .ok (safeLoop greeting ns)
    | _ => .error (.typeError "Greeting must be a string")
  | _ => .error (.typeError "Names must be a list")

/-- One character of Python str.title: a cased character is uppercased after
a non-cased character and lowercased after a cased one; other characters are
unchanged. -/
def pyTitleChar (prevAlpha : Bool) (c : Char) : Char :=
  if c.isAlpha then (if prevAlpha then c.toLower else c.toUpper) else c

/-- The scan of Python str.title over the character list, tracking whether
the previous character was cased. -/
def pyTitleGo : Bool → List Char → List Char
  | _, [] => []
  | prevAlpha, c :: cs => pyTitleChar prevAlpha c :: pyTitleGo c.isAlpha cs

/-- Python str.title: first letter of every word uppercased, the other
letters lowercased, word boundaries being non-letter characters. -/
def pyTitle (s : String) : String :=
  String.mk (pyTitleGo false s.data)

/-- The state of the Greeter class of src/hello.py (lines 175-300): the
configuration fixed at construction and the mutable history. -/
structure Greeter where
  default_greeting : String
  case_sensitive : Bool
  greeting_history : List String
deriving DecidableEq, Repr

/-- The constructor of Greeter (src/hello.py lines 200-222): requires the
default greeting to be a string that is not empty nor whitespace only, and
stores it stripped, with an empty history. -/
def Greeter.init (default_greeting : PyVal) (case_sensitive : Bool) :
    Except Err Greeter :=
  match default_greeting with
  | .str d =>
    if pyStrip d = "" then .error (.valueError "Default greeting cannot be empty")
    else .ok { default_greeting := pyStrip d,
               case_sensitive := case_sensitive,
               greeting_history := [] }
  | _ => .error (.typeError "Default greeting must be a string")

/-- The name actually passed on to the module-level greet: title-cased when
case sensitivity is disabled and the name is a string (src/hello.py lines
242-243). -/
def Greeter.adjustedName (g : Greeter) (name : PyVal) : PyVal :=
  if g.case_sensitive = false then
    match name with
    | .str s => .str (pyTitle s)
    | _ => name
  else name

/-- The greet method of Greeter (src/hello.py lines 224-248) in state-passing
form: the first component is the returned message or the propagated
exception, the second the state of the object after the call (the history
gains the message only on success). A greeting argument of Option.none
models both an omitted argument and an explicit Python None, which the
source treats identically. -/
def Greeter.greet (g : Greeter) (name : PyVal) (greeting : Option PyVal) :
    Except Err String × Greeter :=
  match hello.greet (g.adjustedName name)
      (greeting.getD (.str g.default_greeting)) with
  | .ok m => (.ok m, { g with greeting_history := g.greeting_history ++ [m] })
  | .error e => (.error e, g)

/-- The clear_history method (src/hello.py lines 292-300). -/
def Greeter.clear_history (g : Greeter) : Greeter :=
  { g with greeting_history := [] }

/-- The statistics snapshot returned by get_statistics. -/
structure Stats where
  total_greetings : Nat
  unique_names : Nat
  most_common_greeting : Option String
deriving DecidableEq, Repr

/-- Python str.split with a non-empty separator, over character lists:
scans left to right, cutting at every non-overlapping occurrence of the
separator and keeping empty segments. The fuel argument only guarantees
structural termination; it is always larger than the input length. -/
def splitOnListGo (sep : List Char) : Nat → List Char → List Char →
    List (List Char)
  | _, [], acc => [acc.reverse]
  | 0, l, acc => [acc.reverse ++ l]
  | fuel + 1, c :: rest, acc =>
    if sep.isPrefixOf (c :: rest) then
      acc.reverse :: splitOnListGo sep fuel (List.drop sep.length (c :: rest)) []
    else
      splitOnListGo sep fuel rest (c :: acc)

/-- Python str.split with a separator string. -/
def pySplit (s sep : String) : List String :=
  (splitOnListGo sep.data (s.data.length + 1) s.data []).map String.mk

/-- Concatenation of character lists with a separator between the pieces,
the inverse of splitting; used only to state the spec-side extraction. -/
def joinSep (sep : List Char) : List (List Char) → List Char
  | [] => []
  | [x] => x
  | x :: xs => x ++ sep ++ joinSep sep xs

/-- The greeting word of a stored message: the text before the first comma
(Python msg.split on a comma, first component). -/
def extractWord (msg : String) : String :=
  (pySplit msg ",").headD ""

/-- Python str.rstrip with an exclamation mark: removes every trailing
exclamation mark. -/
def rstripBang (s : String) : String :=
  String.mk (s.data.reverse.dropWhile (fun c => c = '!')).reverse

/-- The name of a stored message as get_statistics extracts it: second
component of the split on comma-space, with all trailing exclamation marks
stripped (Python msg.split with comma-space, index 1, rstrip). Every message
produced by greet contains the comma-space separator, so the second
component exists there; on a message without it this model returns the empty
string where Python would raise an index error outside the spec scope. -/
def extractName (msg : String) : String :=
  rstripBang ((pySplit msg ", ").getD 1 "")

/-- One step of collections.Counter on a list: increment the count of an
already seen key, or append a fresh key with count one, keeping insertion
order. -/
def counterAdd (c : List (String × Nat)) (k : String) : List (String × Nat) :=
  if c.any (fun p => p.1 = k) then
    c.map (fun p => if p.1 = k then (p.1, p.2 + 1) else p)
  else c ++ [(k, 1)]

/-- collections.Counter of a list of strings, as an insertion-ordered
association list of counts. -/
def counter (l : List String) : List (String × Nat) :=
  l.foldl counterAdd []

/-- The head of Counter.most_common: the first entry of the counter holding
the maximal count (most_common stably sorts by descending count, so the
earliest inserted key wins ties). -/
def mostCommonEntry : List (String × Nat) → Option (String × Nat)
  | [] => Option.none
  | p :: ps =>
    match mostCommonEntry ps with
    | Option.none => some p
    | some q => if q.2 > p.2 then some q else some p

/-- The get_statistics method of Greeter (src/hello.py lines 250-290): zero
snapshot on empty history; otherwise the history length, the number of
distinct extracted names (Python len of set), and the first component of
Counter.most_common over the extracted greeting words. -/
def Greeter.get_statistics (g : Greeter) : Stats :=
  if g.greeting_history.length = 0 then
    { total_greetings := 0, unique_names := 0, most_common_greeting := Option.none }
  else
    { total_greetings := g.greeting_history.length,
      unique_names := (g.greeting_history.map extractName).toFinset.card,
      most_common_greeting :=
        (mostCommonEntry (counter (g.greeting_history.map extractWord))).map Prod.fst }

/-- Index of the first occurrence of a string in a list (list length when
absent); used to state the tie-breaking order of the statistics. -/
def firstIdx : List String → String → Nat
  | [], _ => 0
  | x :: xs, a => if x = a then 0 else firstIdx xs a + 1

/-- Modelled from the spec words of C3: the name of a stored message is the
text between the first comma-space and the trailing exclamation mark, so a
single trailing exclamation mark is removed from everything after the first
comma-space separator. -/
def specExtractName (msg : String) : String :=
  let rest := joinSep [',', ' '] (((pySplit msg ", ").drop 1).map String.data)
  String.mk (rest.take (rest.length - 1))

/-- Modelled from the spec words of C3: the greeting word whose running count
first reaches the overall maximal count, which is the winner under the
tie-break the claim describes. -/
def specMostCommon (l : List String) : Option String :=
  let m := l.foldl (fun acc w => max acc (l.count w)) 0
  (List.range l.length).findSome? (fun i =>
    let w := l.getD i ""
    if (l.take (i + 1)).count w = m then some w else Option.none)

/-- A greeter state reached from a fresh greeter by four greet calls, with
greeting words X, Y, Y, X and first name ending in two exclamation marks;
used to compare get_statistics with the specification wording. -/
def statsDemoGreeter : Greeter :=
  ((((Greeter.mk "Hello" true []).greet (.str "A!!")
      (some (.str "X"))).2.greet (.str "A")
      (some (.str "Y"))).2.greet (.str "B")
      (some (.str "Y"))).2.greet (.str "C")
      (some (.str "X")) |>.2

theorem pyStrip_empty : pyStrip "" = "" := rfl

theorem pyStrip_eq_empty_of_empty {n : String} (h : n = "") : pyStrip n = "" := by
  subst h; rfl

/-- The validity guard of greet collapses: an empty string strips to empty. -/
theorem greet_guard_iff (n : String) : (n = "" ∨ pyStrip n = "") ↔ pyStrip n = "" := by
  constructor
  · rintro (h | h)
    · exact pyStrip_eq_empty_of_empty h
    · exact h
  · exact Or.inr

theorem greet_ok (n g : String) (h : pyStrip n ≠ "") :
    greet (.str n) (.str g) = .ok (g ++ ", " ++ pyStrip n ++ "!") := by
  simp only [greet, greet_guard_iff]
  simp [h]

/-- C1: for every name n with at least one non-whitespace character and every
greeting g, both being strings, greet returns exactly
greeting, comma, space, stripped name, exclamation mark; stripping is applied
to the name only, never to the greeting; and omitting the greeting argument
is the same as passing the string Hello. -/
theorem greet_formats (n g : String) (h : pyStrip n ≠ "") :
    greet (.str n) (.str g) = .ok (g ++ ", " ++ pyStrip n ++ "!") ∧
    greet1 (.str n) = greet (.str n) (.str "Hello") := by
  exact ⟨greet_ok n g h, rfl⟩

/-- Witness for C1 at name with surrounding spaces and greeting Hey: the
greeting is not trimmed, the name is. -/
theorem greet_formats_witness :
    greet (.str " Ada ") (.str " Hey") = .ok " Hey, Ada!" ∧
    greet1 (.str " Ada ") = greet (.str " Ada ") (.str "Hello") := by
  have h := greet_formats " Ada " " Hey" (by decide)
  exact ⟨by rw [h.1]; rfl, h.2⟩

theorem greet_ok_of_valid {n : PyVal} (g : String) (h : isValidName n = true) :
    greet n (.str g) = .ok (fmtName g n) := by
  cases n <;> simp [isValidName] at h
  rename_i s
  exact greet_ok s g h

/-- C2: greet raises a type error exactly when the name or the greeting is not
a string; it raises a value error exactly when both are strings and the name
strips to empty; it returns normally exactly when both are strings and the
name does not strip to empty. -/
theorem greet_error_conditions (name greeting : PyVal) :
    ((∃ msg, greet name greeting = .error (.typeError msg)) ↔
       (name.isStr = false ∨ greeting.isStr = false)) ∧
    ((∃ msg, greet name greeting = .error (.valueError msg)) ↔
       (∃ n, name = .str n ∧ greeting.isStr = true ∧ pyStrip n = "")) ∧
    ((∃ m, greet name greeting = .ok m) ↔
       (∃ n, name = .str n ∧ greeting.isStr = true ∧ pyStrip n ≠ "")) := by
  cases name <;> cases greeting <;>
    simp [greet, PyVal.isStr, greet_guard_iff]
  all_goals
    first
    | rfl
    | (rename_i n g
       by_cases h : pyStrip n = "" <;> simp [h])

theorem greetLoop_ok (g : String) :
    ∀ ns : List PyVal, (∀ n ∈ ns, isValidName n = true) →
      greetLoop ns (.str g) = .ok (ns.map (fmtName g)) := by
  intro ns
  induction ns with
  | nil => intro _; rfl
  | cons n ns ih =>
    intro hall
    have hn := hall n (by simp)
    have hns := ih (fun m hm => hall m (by simp [hm]))
    simp [greetLoop, greet_ok_of_valid g hn, hns]

theorem greet_err_of_invalid {bad : PyVal} (g : String)
    (hbad : isValidName bad = false) :
    ∃ e, greet bad (.str g) = .error e := by
  cases bad <;> simp [isValidName] at hbad ⊢ <;> simp [greet]
  rename_i s
  simp [greet_guard_iff, hbad]

theorem greetLoop_error_prefix (g : String) (bad : PyVal) (rest : List PyVal)
    (e : Err) (he : greet bad (.str g) = .error e) :
    ∀ pre : List PyVal, (∀ n ∈ pre, isValidName n = true) →
      greetLoop (pre ++ bad :: rest) (.str g) = .error e := by
  intro pre
  induction pre with
  | nil => intro _; simp [greetLoop, he]
  | cons p ps ih =>
    intro hpre
    have hp := hpre p (by simp)
    have hps := ih (fun m hm => hpre m (by simp [hm]))
    simp [greetLoop, greet_ok_of_valid g hp, hps]

/-- C4: on a list of names that are all valid, greet_multiple returns the
messages of greet in input order (empty for empty input); and whenever the
list contains an invalid name, the whole call aborts with the error greet
raises on the first invalid name, returning no partial result. -/
theorem greet_multiple_strict (ns : List PyVal) (g : String) :
    ((∀ n ∈ ns, isValidName n = true) →
       greet_multiple (.list ns) (.str g) = .ok (ns.map (fmtName g)) ∧
       ∀ n ∈ ns, greet n (.str g) = .ok (fmtName g n)) ∧
    (∀ (pre : List PyVal) (bad : PyVal) (rest : List PyVal),
       ns = pre ++ bad :: rest → (∀ n ∈ pre, isValidName n = true) →
       isValidName bad = false →
       ∃ e, greet bad (.str g) = .error e ∧
         greet_multiple (.list ns) (.str g) = .error e) := by
  constructor
  · intro hall
    exact ⟨greetLoop_ok g ns hall, fun n hn => greet_ok_of_valid g (hall n hn)⟩
  · intro pre bad rest hsplit hpre hbad
    obtain ⟨e, he⟩ := greet_err_of_invalid g hbad
    refine ⟨e, he, ?_⟩
    subst hsplit
    exact greetLoop_error_prefix g bad rest e he pre hpre

/-- Witness for C4: a fully valid batch maps in order, and one whitespace
name aborts the whole call with its value error. -/
theorem greet_multiple_strict_witness :
    greet_multiple (.list [.str "Alice", .str "Bob"]) (.str "Hello") =
      .ok ["Hello, Alice!", "Hello, Bob!"] ∧
    greet_multiple (.list [.str "Alice", .str " ", .str "Bob"]) (.str "Hello") =
      .error (.valueError "Name cannot be empty or whitespace only") := by
  constructor
  · have h := (greet_multiple_strict [.str "Alice", .str "Bob"] "Hello").1
      (by decide)
    rw [h.1]; rfl
  · have h := (greet_multiple_strict [.str "Alice", .str " ", .str "Bob"]
      "Hello").2 [.str "Alice"] (.str " ") [.str "Bob"] rfl (by decide)
      (by decide)
    obtain ⟨e, he, hres⟩ := h
    have : e = .valueError "Name cannot be empty or whitespace only" := by
      have : greet (.str " ") (.str "Hello") =
          .error (.valueError "Name cannot be empty or whitespace only") := rfl
      rw [this] at he
      exact (Except.error.inj he).symm
    rw [hres, this]

/-- Every error escaping the element loop of greet_multiple comes from greet
on an element, so with a string greeting its message is one of the two
element-level messages, never a top-level one. -/
theorem greetLoop_error_shape (ns : List PyVal) (g : String) (e : Err)
    (h : greetLoop ns (.str g) = .error e) :
    e = .typeError "Name must be a string" ∨
    e = .valueError "Name cannot be empty or whitespace only" := by
  induction ns with
  | nil => simp [greetLoop] at h
  | cons n ns ih =>
    simp only [greetLoop] at h
    cases hg : greet n (.str g) with
    | error e2 =>
      rw [hg] at h
      have he2 : e2 = e := Except.error.inj h
      subst he2
      cases n <;> simp [greet] at hg <;> try (left; exact hg.symm)
      rename_i s
      by_cases hs : s = "" ∨ pyStrip s = "" <;> simp [hs] at hg
      right; exact hg.symm
    | ok m =>
      rw [hg] at h
      cases hl : greetLoop ns (.str g) with
      | error e2 =>
        rw [hl] at h
        have : e2 = e := Except.error.inj h
        subst this
        exact ih hl
      | ok ms => rw [hl] at h; exact absurd h (by simp)

/-- C5 counterexample: a tuple is a genuine Python sequence type, yet both
batch formatters reject it with the list type error, refuting the claim that
every genuine sequence type is accepted as the names argument. -/
theorem batch_sequence_counterexample :
    PyVal.isSequence (.tuple [.str "x"]) = true ∧
    greet_multiple (.tuple [.str "x"]) (.str "Hello") =
      .error (.typeError "Names must be a list") ∧
    greet_multiple_safe (.tuple [.str "x"]) (.str "Hello") =
      .error (.typeError "Names must be a list") :=
  ⟨rfl, rfl, rfl⟩

/-- C5 amended: both batch formatters raise one of the two top-level type
errors exactly when the names argument is not a list (even when it is another
sequence type such as a tuple or a string) or the greeting argument is not a
string. -/
theorem batch_type_errors (names greeting : PyVal) :
    ((greet_multiple names greeting = .error (.typeError "Names must be a list") ∨
      greet_multiple names greeting = .error (.typeError "Greeting must be a string")) ↔
      (names.isList = false ∨ greeting.isStr = false)) ∧
    ((greet_multiple_safe names greeting = .error (.typeError "Names must be a list") ∨
      greet_multiple_safe names greeting = .error (.typeError "Greeting must be a string")) ↔
      (names.isList = false ∨ greeting.isStr = false)) := by
  cases names <;> cases greeting <;>
    simp [greet_multiple, greet_multiple_safe, PyVal.isList, PyVal.isStr]
  rename_i ns g
  constructor <;>
    (intro h
     rcases greetLoop_error_shape ns g _ h with h2 | h2 <;>
       exact absurd h2 (by decide))

/-- C6: with a list of arbitrary values and a string greeting, the tolerant
formatter returns exactly the formatted messages of the valid names in their
input order, and counts every invalid entry as skipped, raising no error. -/
theorem greet_multiple_safe_filters (ns : List PyVal) (g : String) :
    greet_multiple_safe (.list ns) (.str g) =
      .ok ((ns.filter isValidName).map (fmtName g),
           (ns.filter (fun n => !(isValidName n))).length) := by
  simp only [greet_multiple_safe]
  congr 1
  induction ns with
  | nil => rfl
  | cons n ns ih =>
    cases n with
    | str s =>
      by_cases hs : pyStrip s = ""
      · simp [safeLoop, hs, ih, List.filter_cons, isValidName]
      · have hv : isValidName (.str s) = true := by simp [isValidName, hs]
        have hg2 : greet (.str s) (.str g) = .ok (fmtName g (.str s)) :=
          greet_ok_of_valid g hv
        simp [safeLoop, hs, hg2, ih, List.filter_cons, hv]
    | _ => simp [safeLoop, ih, List.filter_cons, isValidName]

/-- Witness instance for C6 matching the spec example: one empty string and
one None entry are skipped, the three valid names are greeted in order. -/
theorem greet_multiple_safe_example :
    greet_multiple_safe
        (.list [.str "Alice", .str "", .str "Bob", .none, .str "Charlie"])
        (.str "Hello") =
      .ok (["Hello, Alice!", "Hello, Bob!", "Hello, Charlie!"], 2) := by
  rw [greet_multiple_safe_filters]; rfl

theorem space_toNat {c : Char} (h : isPySpace c = true) : c.toNat < 33 := by
  simp [isPySpace] at h
  rcases h with ((((h | h) | h) | h) | h) | h <;> subst h <;> decide

theorem alpha_toNat {c : Char} (h : c.isAlpha = true) :
    65 ≤ c.toNat ∧ c.toNat ≤ 122 := by
  simp [Char.isAlpha, Char.isUpper, Char.isLower, UInt32.le_def, BitVec.le_def] at h
  simp only [Char.toNat, UInt32.toNat]
  rcases h with ⟨h1, h2⟩ | ⟨h1, h2⟩ <;> exact ⟨by omega, by omega⟩

theorem toNat_ofNat_valid {n : Nat} (h : n.isValidChar) : (Char.ofNat n).toNat = n := by
  rw [Char.ofNat, dif_pos h]
  rfl

theorem toUpper_toNat_alpha {c : Char} (h : c.isAlpha = true) :
    65 ≤ (c.toUpper).toNat ∧ (c.toUpper).toNat ≤ 122 := by
  have hc := alpha_toNat h
  rw [Char.toUpper]
  split
  · rename_i h2
    have hv : (c.toNat - 32).isValidChar := Or.inl (by omega)
    rw [toNat_ofNat_valid hv]
    omega
  · exact hc

theorem toLower_toNat_alpha {c : Char} (h : c.isAlpha = true) :
    65 ≤ (c.toLower).toNat ∧ (c.toLower).toNat ≤ 122 := by
  have hc := alpha_toNat h
  rw [Char.toLower]
  split
  · rename_i h2
    have hv : (c.toNat + 32).isValidChar := Or.inl (by omega)
    rw [toNat_ofNat_valid hv]
    omega
  · exact hc

theorem space_not_alpha {c : Char} (h : isPySpace c = true) : c.isAlpha = false := by
  rw [Bool.eq_false_iff]
  intro ha
  have := alpha_toNat ha
  have := space_toNat h
  omega

theorem toUpper_not_space {c : Char} (h : c.isAlpha = true) :
    isPySpace c.toUpper = false := by
  rw [Bool.eq_false_iff]
  intro hs
  have := space_toNat hs
  have := toUpper_toNat_alpha h
  omega

theorem toLower_not_space {c : Char} (h : c.isAlpha = true) :
    isPySpace c.toLower = false := by
  rw [Bool.eq_false_iff]
  intro hs
  have := space_toNat hs
  have := toLower_toNat_alpha h
  omega

theorem pyTitleChar_space {b : Bool} {c : Char}
    (h : isPySpace (pyTitleChar b c) = true) : isPySpace c = true := by
  by_cases ha : c.isAlpha = true
  · rw [pyTitleChar, if_pos ha] at h
    cases b <;> simp only [if_true, if_false, Bool.false_eq_true] at h
    · rw [toUpper_not_space ha] at h; exact absurd h (by simp)
    · rw [toLower_not_space ha] at h; exact absurd h (by simp)
  · rwa [pyTitleChar, if_neg ha] at h

theorem pyTitleChar_of_space {b : Bool} {c : Char}
    (h : isPySpace c = true) : pyTitleChar b c = c := by
  rw [pyTitleChar, if_neg]
  rw [space_not_alpha h]
  simp

theorem pyTitleGo_space : ∀ (l : List Char) (b : Bool),
    (∀ c ∈ pyTitleGo b l, isPySpace c = true) → ∀ c ∈ l, isPySpace c = true := by
  intro l
  induction l with
  | nil => intro b _ c hc; exact absurd hc (by simp)
  | cons c cs ih =>
    intro b h d hd
    have hmem : pyTitleChar b c ∈ pyTitleGo b (c :: cs) := by
      rw [pyTitleGo]
      exact List.mem_cons_self _ _
    rcases List.mem_cons.mp hd with rfl | hd2
    · exact pyTitleChar_space (h _ hmem)
    · refine ih c.isAlpha (fun e he => h e ?_) d hd2
      rw [pyTitleGo]
      exact List.mem_cons_of_mem _ he

theorem pyTitleGo_of_space : ∀ (l : List Char) (b : Bool),
    (∀ c ∈ l, isPySpace c = true) → pyTitleGo b l = l := by
  intro l
  induction l with
  | nil => intro b _; rfl
  | cons c cs ih =>
    intro b h
    have hc := h c (List.mem_cons_self _ _)
    rw [pyTitleGo, pyTitleChar_of_space hc,
      ih c.isAlpha (fun e he => h e (List.mem_cons_of_mem _ he))]

theorem pyStrip_eq_empty_iff (s : String) :
    pyStrip s = "" ↔ ∀ c ∈ s.data, isPySpace c = true := by
  have hnil : ∀ l : List Char,
      pyStripList l = [] ↔ ∀ c ∈ l, isPySpace c = true := by
    intro l
    rw [pyStripList]
    simp only [List.reverse_eq_nil_iff, List.dropWhile_eq_nil_iff,
      List.mem_reverse]
    constructor
    · intro h c hc
      have hsplit : c ∈ l.takeWhile isPySpace ++ l.dropWhile isPySpace := by
        rw [List.takeWhile_append_dropWhile]
        exact hc
      rcases List.mem_append.mp hsplit with h2 | h2
      · exact List.mem_takeWhile_imp h2
      · exact h c h2
    · intro h c hc
      exact h c (List.dropWhile_subset _ hc)
  rw [pyStrip, String.ext_iff]
  exact hnil s.data

theorem pyStrip_title_empty {s : String} (h : pyStrip (pyTitle s) = "") :
    pyStrip s = "" := by
  rw [pyStrip_eq_empty_iff] at h ⊢
  exact pyTitleGo_space s.data false h

theorem pyTitle_of_space {s : String} (h : pyStrip s = "") : pyTitle s = s := by
  rw [pyStrip_eq_empty_iff] at h
  rw [pyTitle, pyTitleGo_of_space s.data false h]

/-- C7: on a greeter with case sensitivity disabled, greet behaves exactly as
the module-level greet applied to the title-cased name and the stored default
greeting when the greeting argument is omitted; in particular an empty or
whitespace-only name still fails with the same invalid-value error. -/
theorem case_insensitive_greet (g : Greeter) (h : g.case_sensitive = false)
    (name : String) :
    (g.greet (.str name) Option.none).1 =
      greet (.str (pyTitle name)) (.str g.default_greeting) ∧
    (pyStrip name = "" →
      (g.greet (.str name) Option.none).1 =
        .error (.valueError "Name cannot be empty or whitespace only")) := by
  have hadj : g.adjustedName (.str name) = .str (pyTitle name) := by
    rw [Greeter.adjustedName, if_pos h]
  have h1 : (g.greet (.str name) Option.none).1 =
      greet (.str (pyTitle name)) (.str g.default_greeting) := by
    rw [Greeter.greet, hadj]
    cases hg : greet (.str (pyTitle name)) (.str g.default_greeting) <;>
      simp [hg]
  refine ⟨h1, fun hs => ?_⟩
  rw [h1, pyTitle_of_space hs]
  simp [greet, greet_guard_iff, hs]

/-- Witness for C7: with default Hola and case sensitivity off, greeting bob
produces Hola comma space Bob exclamation mark, and a whitespace-only name is
rejected with the invalid-value error. -/
theorem case_insensitive_greet_witness :
    (Greeter.greet ⟨"Hola", false, []⟩ (.str "bob") Option.none).1 =
      .ok "Hola, Bob!" ∧
    (Greeter.greet ⟨"Hola", false, []⟩ (.str "  ") Option.none).1 =
      .error (.valueError "Name cannot be empty or whitespace only") := by
  have h1 := case_insensitive_greet ⟨"Hola", false, []⟩ rfl "bob"
  have h2 := case_insensitive_greet ⟨"Hola", false, []⟩ rfl "  "
  exact ⟨by rw [h1.1]; rfl, h2.2 (by decide)⟩

/-- C8: clear_history empties the history, changes neither configuration
field, is idempotent, and afterwards get_statistics reports zero greetings,
zero unique names and no most common greeting. -/
theorem clear_history_spec (g : Greeter) :
    g.clear_history.greeting_history = [] ∧
    g.clear_history.default_greeting = g.default_greeting ∧
    g.clear_history.case_sensitive = g.case_sensitive ∧
    g.clear_history.clear_history = g.clear_history ∧
    g.clear_history.get_statistics =
      { total_greetings := 0, unique_names := 0,
        most_common_greeting := Option.none } :=
  ⟨rfl, rfl, rfl, rfl, rfl⟩

/-- C9: the greet method appends exactly the returned message to the history
on success, and leaves the whole state untouched when it raises. -/
theorem greet_state_effect (g : Greeter) (name : PyVal) (greeting : Option PyVal) :
    (∀ m, (g.greet name greeting).1 = .ok m →
      (g.greet name greeting).2 =
        { g with greeting_history := g.greeting_history ++ [m] }) ∧
    (∀ e, (g.greet name greeting).1 = .error e → (g.greet name greeting).2 = g) := by
  cases hg : greet (g.adjustedName name) (greeting.getD (.str g.default_greeting)) with
  | ok m2 =>
    constructor
    · intro m hm
      rw [Greeter.greet, hg] at hm ⊢
      cases hm
      rfl
    · intro e he
      rw [Greeter.greet, hg] at he
      exact absurd he (by simp)
  | error e2 =>
    constructor
    · intro m hm
      rw [Greeter.greet, hg] at hm
      exact absurd hm (by simp)
    · intro e he
      rw [Greeter.greet, hg]

/-- Witness for C9: a failing greet leaves the greeter unchanged, a
successful greet appends exactly its message. -/
theorem greet_state_effect_witness :
    (Greeter.greet ⟨"Hello", true, []⟩ (.str " ") Option.none).2 =
      ⟨"Hello", true, []⟩ ∧
    (Greeter.greet ⟨"Hello", true, []⟩ (.str "Bob") Option.none).2 =
      ⟨"Hello", true, ["Hello, Bob!"]⟩ := by
  refine ⟨(greet_state_effect ⟨"Hello", true, []⟩ (.str " ") Option.none).2
      (.valueError "Name cannot be empty or whitespace only") rfl, ?_⟩
  have h2 := (greet_state_effect ⟨"Hello", true, []⟩ (.str "Bob") Option.none).1
    "Hello, Bob!" rfl
  exact h2

/-- C10: an empty greeting word is accepted everywhere except at greeter
construction: greet with an empty greeting returns comma space name
exclamation mark; every greeter accepts an explicit empty greeting argument
for a valid name (the name being title-cased first when case sensitivity is
off); and constructing a greeter whose default greeting strips to empty
raises the invalid-value error. -/
theorem empty_greeting_accepted (n : String) (h : pyStrip n ≠ "") :
    greet (.str n) (.str "") = .ok (", " ++ pyStrip n ++ "!") ∧
    (∀ g : Greeter, (g.greet (.str n) (some (.str ""))).1 =
        .ok (", " ++ pyStrip (if g.case_sensitive then n else pyTitle n) ++ "!")) ∧
    (∀ (d : String) (b : Bool), pyStrip d = "" →
        Greeter.init (.str d) b =
          .error (.valueError "Default greeting cannot be empty")) := by
  refine ⟨by rw [greet_ok n "" h]; rfl, fun g => ?_, fun d b hd => ?_⟩
  · cases hcs : g.case_sensitive with
    | true =>
      simp only [Greeter.greet, Greeter.adjustedName, hcs, Option.getD_some,
        Bool.true_eq_false, if_neg, if_false, reduceIte]
      rw [greet_ok n "" h]
      rfl
    | false =>
      have ht : pyStrip (pyTitle n) ≠ "" := fun he => h (pyStrip_title_empty he)
      simp only [Greeter.greet, Greeter.adjustedName, hcs, Option.getD_some,
        if_true, reduceIte]
      rw [greet_ok (pyTitle n) "" ht]
      rfl
  · rw [Greeter.init, if_pos hd]

/-- Witness for C10: greeting with the empty word succeeds both at module
level and through a case-insensitive greeter, while constructing with a
whitespace default greeting fails. -/
theorem empty_greeting_accepted_witness :
    greet (.str " Ada ") (.str "") = .ok ", Ada!" ∧
    (Greeter.greet ⟨"Hi", false, []⟩ (.str " Ada ") (some (.str ""))).1 =
      .ok ", Ada!" ∧
    Greeter.init (.str "   ") true =
      .error (.valueError "Default greeting cannot be empty") := by
  have h := empty_greeting_accepted " Ada " (by decide)
  refine ⟨by rw [h.1]; rfl, ?_, h.2.2 "   " true (by decide)⟩
  have h2 := h.2.1 ⟨"Hi", false, []⟩
  rw [h2]
  rfl

theorem firstIdx_append_of_mem {a : String} : ∀ {l : List String} (l2 : List String),
    a ∈ l → firstIdx (l ++ l2) a = firstIdx l a := by
  intro l
  induction l with
  | nil => intro l2 h; exact absurd h (by simp)
  | cons x xs ih =>
    intro l2 h
    by_cases hx : x = a
    · simp [firstIdx, hx]
    · rcases List.mem_cons.mp h with rfl | h2
      · exact absurd rfl hx
      · simp [firstIdx, hx, ih l2 h2]

theorem firstIdx_append_of_not_mem {a : String} : ∀ {l : List String} (l2 : List String),
    a ∉ l → firstIdx (l ++ l2) a = l.length + firstIdx l2 a := by
  intro l
  induction l with
  | nil => intro l2 _; simp [firstIdx]
  | cons x xs ih =>
    intro l2 h
    have hx : x ≠ a := fun e => h (by simp [e])
    have h2 : a ∉ xs := fun e => h (by simp [e])
    simp [firstIdx, hx, ih l2 h2]
    omega

theorem firstIdx_lt_length_of_mem {a : String} : ∀ {l : List String},
    a ∈ l → firstIdx l a < l.length := by
  intro l
  induction l with
  | nil => intro h; exact absurd h (by simp)
  | cons x xs ih =>
    intro h
    by_cases hx : x = a
    · simp [firstIdx, hx]
    · rcases List.mem_cons.mp h with rfl | h2
      · exact absurd rfl hx
      · simp [firstIdx, hx]
        exact ih h2

theorem counter_snoc (l : List String) (x : String) :
    counter (l ++ [x]) = counterAdd (counter l) x := by
  simp [counter, List.foldl_append]

theorem counter_inv (l : List String) :
    (∀ p ∈ counter l, p.1 ∈ l ∧ p.2 = l.count p.1) ∧
    (∀ v ∈ l, ∃ n, (v, n) ∈ counter l) ∧
    (counter l).Pairwise (fun p q => firstIdx l p.1 < firstIdx l q.1) := by
  induction l using List.reverseRecOn with
  | nil => exact ⟨by simp [counter], by simp, by simp [counter]⟩
  | append_singleton xs x ih =>
    obtain ⟨hmem, hex, hpw⟩ := ih
    rw [counter_snoc]
    by_cases hx : x ∈ xs
    · have hany : ((counter xs).any (fun p => decide (p.1 = x))) = true := by
        obtain ⟨n, hn⟩ := hex x hx
        exact List.any_eq_true.mpr ⟨(x, n), hn, by simp⟩
      rw [counterAdd, if_pos hany]
      refine ⟨?_, ?_, ?_⟩
      · intro p hp
        obtain ⟨q, hq, rfl⟩ := List.mem_map.mp hp
        have hq1 := (hmem q hq).1
        have hq2 := (hmem q hq).2
        by_cases he : q.1 = x
        · simp only [if_pos he]
          refine ⟨by simp [hq1], ?_⟩
          rw [List.count_append, he]
          simp [hq2, he]
        · simp only [if_neg he]
          refine ⟨by simp [hq1], ?_⟩
          rw [List.count_append]
          simp [hq2, List.count_cons, he]
      · intro v hv
        have hvx : v ∈ xs := by
          rcases List.mem_append.mp hv with h1 | h1
          · exact h1
          · rcases List.mem_cons.mp h1 with rfl | h1
            · exact hx
            · exact absurd h1 (by simp)
        obtain ⟨n, hn⟩ := hex v hvx
        refine ⟨if v = x then n + 1 else n, ?_⟩
        have hmm : (fun p : String × Nat => if p.1 = x then (p.1, p.2 + 1) else p) (v, n) ∈
            (counter xs).map (fun p => if p.1 = x then (p.1, p.2 + 1) else p) :=
          List.mem_map_of_mem _ hn
        by_cases he : v = x <;> simpa [he] using hmm
      · have hfst : ∀ p : String × Nat,
            (if p.1 = x then (p.1, p.2 + 1) else p).1 = p.1 := by
          intro p
          by_cases he : p.1 = x <;> simp [he]
        rw [List.pairwise_map]
        refine hpw.imp_of_mem ?_
        intro a b ha hb hab
        rw [hfst a, hfst b, firstIdx_append_of_mem _ (hmem a ha).1,
          firstIdx_append_of_mem _ (hmem b hb).1]
        exact hab
    · have hany : ¬ (((counter xs).any (fun p => decide (p.1 = x))) = true) := by
        intro hc
        rcases List.any_eq_true.mp hc with ⟨p, hp, he⟩
        have hp1 := (hmem p hp).1
        have hpe : p.1 = x := by simpa using he
        rw [hpe] at hp1
        exact hx hp1
      rw [counterAdd, if_neg hany]
      have hcount0 : xs.count x = 0 := List.count_eq_zero.mpr hx
      refine ⟨?_, ?_, ?_⟩
      · intro p hp
        rcases List.mem_append.mp hp with h1 | h1
        · have hp1 := (hmem p h1).1
          have hp2 := (hmem p h1).2
          have hne : p.1 ≠ x := fun e => hx (by rw [e] at hp1; exact hp1)
          refine ⟨by simp [hp1], ?_⟩
          rw [List.count_append]
          simp [hp2, List.count_cons, hne]
        · rcases List.mem_cons.mp h1 with rfl | h1
          · refine ⟨by simp, ?_⟩
            rw [List.count_append]
            simp [hcount0]
          · exact absurd h1 (by simp)
      · intro v hv
        rcases List.mem_append.mp hv with h1 | h1
        · obtain ⟨n, hn⟩ := hex v h1
          exact ⟨n, List.mem_append_left _ hn⟩
        · rcases List.mem_cons.mp h1 with rfl | h1
          · exact ⟨1, List.mem_append_right _ (by simp)⟩
          · exact absurd h1 (by simp)
      · rw [List.pairwise_append]
        refine ⟨?_, by simp, ?_⟩
        · refine hpw.imp_of_mem ?_
          intro a b ha hb hab
          rw [firstIdx_append_of_mem _ (hmem a ha).1,
            firstIdx_append_of_mem _ (hmem b hb).1]
          exact hab
        · intro a ha b hb
          rcases List.mem_singleton.mp hb with rfl
          have ha1 := (hmem a ha).1
          rw [firstIdx_append_of_mem _ ha1, firstIdx_append_of_not_mem _ hx]
          have := firstIdx_lt_length_of_mem ha1
          simp [firstIdx]
          omega

theorem mostCommonEntry_eq_none : ∀ c : List (String × Nat),
    mostCommonEntry c = Option.none ↔ c = [] := by
  intro c
  cases c with
  | nil => simp [mostCommonEntry]
  | cons p ps =>
    simp only [mostCommonEntry]
    cases mostCommonEntry ps with
    | none => simp
    | some q =>
      by_cases h : q.2 > p.2 <;> simp [h]

theorem mostCommonEntry_spec : ∀ (c : List (String × Nat)) (p : String × Nat),
    mostCommonEntry c = some p →
    ∃ c1 c2, c = c1 ++ p :: c2 ∧ (∀ q ∈ c1, q.2 < p.2) ∧ (∀ q ∈ c2, q.2 ≤ p.2) := by
  intro c
  induction c with
  | nil => intro p hp; simp [mostCommonEntry] at hp
  | cons a cs ih =>
    intro p hp
    rw [mostCommonEntry] at hp
    cases hm : mostCommonEntry cs with
    | none =>
      rw [hm] at hp
      have hcs : cs = [] := (mostCommonEntry_eq_none cs).mp hm
      have hp2 : some a = some p := hp
      cases hp2
      exact ⟨[], [], by simp [hcs], by simp, by simp [hcs]⟩
    | some q =>
      rw [hm] at hp
      have hp2 : (if q.2 > a.2 then some q else some a) = some p := hp
      obtain ⟨c1, c2, hsplit, hlt, hle⟩ := ih q hm
      by_cases hgt : q.2 > a.2
      · rw [if_pos hgt] at hp2
        cases hp2
        refine ⟨a :: c1, c2, by simp [hsplit], ?_, hle⟩
        intro r hr
        rcases List.mem_cons.mp hr with rfl | h2
        · exact hgt
        · exact hlt r h2
      · rw [if_neg hgt] at hp2
        cases hp2
        refine ⟨[], cs, by simp, by simp, ?_⟩
        intro r hr
        have hqa : q.2 ≤ a.2 := Nat.le_of_not_lt hgt
        rw [hsplit] at hr
        rcases List.mem_append.mp hr with h1 | h1
        · exact le_trans (Nat.le_of_lt (hlt r h1)) hqa
        · rcases List.mem_cons.mp h1 with rfl | h2
          · exact hqa
          · exact le_trans (hle r h2) hqa

theorem mostCommon_is_max (ws : List String) (hws : ws ≠ []) :
    ∃ w, (mostCommonEntry (counter ws)).map Prod.fst = some w ∧
      w ∈ ws ∧ (∀ v ∈ ws, ws.count v ≤ ws.count w) ∧
      (∀ v ∈ ws, ws.count v = ws.count w → firstIdx ws w ≤ firstIdx ws v) := by
  obtain ⟨hmem, hex, hpw⟩ := counter_inv ws
  obtain ⟨v0, hv0⟩ : ∃ v, v ∈ ws := List.exists_mem_of_ne_nil ws hws
  obtain ⟨n0, hn0⟩ := hex v0 hv0
  have hcne : counter ws ≠ [] := by
    intro he
    rw [he] at hn0
    exact absurd hn0 (by simp)
  cases hmc : mostCommonEntry (counter ws) with
  | none => exact absurd ((mostCommonEntry_eq_none _).mp hmc) hcne
  | some p =>
    obtain ⟨c1, c2, hsplit, hlt, hle⟩ := mostCommonEntry_spec _ p hmc
    have hpmem : p ∈ counter ws := by
      rw [hsplit]
      exact List.mem_append_right _ (List.mem_cons_self _ _)
    have hp1 : p.1 ∈ ws := (hmem p hpmem).1
    have hp2 : p.2 = ws.count p.1 := (hmem p hpmem).2
    refine ⟨p.1, by simp [hmc], hp1, ?_, ?_⟩
    · intro v hv
      obtain ⟨n, hn⟩ := hex v hv
      have hn2 : n = ws.count v := (hmem (v, n) hn).2
      rw [hsplit] at hn
      rcases List.mem_append.mp hn with h1 | h1
      · have := hlt _ h1
        omega
      · rcases List.mem_cons.mp h1 with he | h2
        · have hvp : v = p.1 := congrArg Prod.fst he
          rw [hvp]
        · have := hle _ h2
          omega
    · intro v hv hcount
      obtain ⟨n, hn⟩ := hex v hv
      have hn2 : n = ws.count v := (hmem (v, n) hn).2
      rw [hsplit] at hn
      rcases List.mem_append.mp hn with h1 | h1
      · have := hlt _ h1
        omega
      · rcases List.mem_cons.mp h1 with he | h2
        · have hvp : v = p.1 := congrArg Prod.fst he
          rw [hvp]
        · have hpw2 := hpw
          rw [hsplit] at hpw2
          have hcons := (List.pairwise_append.mp hpw2).2.1
          have hfwd := (List.pairwise_cons.mp hcons).1
          have := hfwd _ h2
          exact Nat.le_of_lt this

/-- C3 amended: for every greeter with non-empty history, get_statistics
returns the history length as total_greetings; as unique_names the number of
distinct names obtained by splitting each message at the first comma-space,
taking the remainder up to the next comma-space and removing every trailing
exclamation mark; and as most_common_greeting some word of the greeting-word
list (text before the first comma of each message) whose count is maximal,
ties broken in favor of the word whose first occurrence in the history is
earliest. -/
theorem get_statistics_spec (g : Greeter) (h : g.greeting_history ≠ []) :
    g.get_statistics.total_greetings = g.greeting_history.length ∧
    g.get_statistics.unique_names =
      (g.greeting_history.map extractName).toFinset.card ∧
    ∃ w, g.get_statistics.most_common_greeting = some w ∧
      w ∈ g.greeting_history.map extractWord ∧
      (∀ v ∈ g.greeting_history.map extractWord,
        (g.greeting_history.map extractWord).count v ≤
          (g.greeting_history.map extractWord).count w) ∧
      (∀ v ∈ g.greeting_history.map extractWord,
        (g.greeting_history.map extractWord).count v =
          (g.greeting_history.map extractWord).count w →
        firstIdx (g.greeting_history.map extractWord) w ≤
          firstIdx (g.greeting_history.map extractWord) v) := by
  have hlen : ¬ (g.greeting_history.length = 0) := by
    simpa [List.length_eq_zero] using h
  have hws : g.greeting_history.map extractWord ≠ [] := by
    intro he
    exact h (List.map_eq_nil_iff.mp he)
  obtain ⟨w, hw1, hw2, hw3, hw4⟩ := mostCommon_is_max _ hws
  rw [Greeter.get_statistics, if_neg hlen]
  exact ⟨rfl, rfl, w, hw1, hw2, hw3, hw4⟩

/-- Witness for the amended C3 at a greeter holding one stored message. -/
theorem get_statistics_spec_witness :
    (Greeter.mk "Hello" true ["Hi, Bob!"]).get_statistics.total_greetings = 1 ∧
    (Greeter.mk "Hello" true ["Hi, Bob!"]).get_statistics.unique_names = 1 := by
  have h := get_statistics_spec (Greeter.mk "Hello" true ["Hi, Bob!"])
    (by decide)
  exact ⟨by rw [h.1]; rfl, by rw [h.2.1]; decide⟩

/-- C3 counterexample: for the greeter reached by four greet calls with
greeting words X, Y, Y, X and a first name ending in exclamation marks, the
code counts 3 unique names although the extraction described by the claim
(text between the first comma-space and the trailing exclamation mark)
yields 4 distinct names, and the code reports X as most common although Y is
the greeting word that first reaches the maximal count, refuting both the
name-extraction and the tie-breaking parts of the claim. -/
theorem get_statistics_claim_counterexample :
    statsDemoGreeter.get_statistics.unique_names ≠
      (statsDemoGreeter.greeting_history.map specExtractName).toFinset.card ∧
    statsDemoGreeter.get_statistics.most_common_greeting ≠
      specMostCommon (statsDemoGreeter.greeting_history.map extractWord) := by
  constructor <;> decide

end hello
